import Mathlib

/-!
Verification of the access-zones RBAC core: a shallow embedding of the
bitfield codec, the validation layer, role normalization and aggregation,
and the permission evaluator, together with proofs of the specified
properties.

Conventions of the embedding:
* JavaScript numbers that may be non-integral or non-finite are modelled by
  `JSNum`; code paths that only ever see integral numbers use `Int`.
* JavaScript 32-bit bitwise operators (which convert their operands with
  ToInt32/ToUint32 and return a signed 32-bit result) are modelled by
  `jsAnd`, `jsOr`, `jsNot` over `Int`.
* Functions that can throw return `Except AccessControlError _`
  (or `Except ThrownError _` when the source throws a plain `Error`).
* `Record<string, number>` objects are modelled as association lists
  `List (String × Int)` read through `List.lookup`; assignment is
  update-first-occurrence-or-append, matching JS property update order.
-/

/-- Model of a JavaScript number: NaN, the two infinities, or a finite
rational (doubles that occur in this library are exactly representable). -/
inductive JSNum where
  | nan : JSNum
  | inf : JSNum
  | ninf : JSNum
  | num : ℚ → JSNum
deriving DecidableEq

/-- Error status union from src/types/errors.ts. -/
inductive ErrorStatus where
  | unauthorized : ErrorStatus
  | forbidden : ErrorStatus
  | invalid_permission : ErrorStatus
deriving DecidableEq, Repr

/-- AccessControlError from src/types/errors.ts (message, status, optional code). -/
structure AccessControlError where
  message : String
  status : ErrorStatus
  code : Option String := none
deriving DecidableEq, Repr

deriving instance DecidableEq for Except

/-- Errors thrown by evaluator entry points: either an AccessControlException
or a plain JavaScript Error (as thrown by assertDataAccess). -/
inductive ThrownError where
  | ac : AccessControlError → ThrownError
  | js : String → ThrownError
deriving DecidableEq, Repr

/-- ToUint32 of an integral JS number: the representative of n mod 2^32. -/
def toUint32 (n : Int) : ℕ := (n % 4294967296).toNat

/-- Decode a 32-bit pattern as a signed (two-complement) JS bitwise-op result. -/
def ofUint32 (u : ℕ) : Int := if u < 2147483648 then (u : Int) else (u : Int) - 4294967296

/-- JavaScript `a & b` on integral numbers (ToInt32 conversion, signed result). -/
def jsAnd (a b : Int) : Int := ofUint32 (toUint32 a &&& toUint32 b)

/-- JavaScript `a | b` on integral numbers (ToInt32 conversion, signed result). -/
def jsOr (a b : Int) : Int := ofUint32 (toUint32 a ||| toUint32 b)

/-- JavaScript `~a` on integral numbers: flip every one of the 32 bits. -/
def jsNot (a : Int) : Int := ofUint32 (4294967295 - toUint32 a)

namespace PERMISSION_MASKS

/-- ADMIN mask bit (src/constants/masks.ts). -/
def ADMIN : Int := 16

/-- CREATE mask bit (src/constants/masks.ts). -/
def CREATE : Int := 8

/-- READ mask bit (src/constants/masks.ts). -/
def READ : Int := 4

/-- UPDATE mask bit (src/constants/masks.ts). -/
def UPDATE : Int := 2

/-- DELETE mask bit (src/constants/masks.ts). -/
def DELETE : Int := 1

/-- ALL CRUD mask (src/constants/masks.ts). -/
def ALL : Int := 15

end PERMISSION_MASKS

/-- Maximum valid permission bitfield (src/core/validation.ts). -/
def MAX_VALID_PERMISSION : ℕ := 4294967295

/-- Minimum valid permission bitfield (src/core/validation.ts). -/
def MIN_VALID_PERMISSION : ℕ := 0

/-- Largest double that satisfies Number.isSafeInteger. -/
def MAX_SAFE_INTEGER : ℕ := 9007199254740991

/-- Number.isInteger for the JSNum model. -/
def jsIsInteger : JSNum → Bool
  | JSNum.num q => q.den == 1
  | _ => false

/-- Number.isFinite for the JSNum model. -/
def jsIsFinite : JSNum → Bool
  | JSNum.num _ => true
  | _ => false

/-- Number.isSafeInteger for the JSNum model. -/
def jsIsSafeInteger : JSNum → Bool
  | JSNum.num q => q.den == 1 && q.num.natAbs ≤ MAX_SAFE_INTEGER
  | _ => false

/-- isValidBitField from src/core/validation.ts: a finite integer inside
[MIN_VALID_PERMISSION, MAX_VALID_PERMISSION] that is also a safe integer. -/
def isValidBitField (bitField : JSNum) : Bool :=
  if !(jsIsInteger bitField) || !(jsIsFinite bitField) then false
  else if (match bitField with
           | JSNum.num q => q < (MIN_VALID_PERMISSION : ℚ) || q > (MAX_VALID_PERMISSION : ℚ)
           | _ => true) then false
  else if !(jsIsSafeInteger bitField) then false
  else true

/-- isValidBitField restricted to integral inputs (every call site below passes
an `Int`); `isValidBitFieldInt_eq_isValidBitField` proves the restriction
agrees with the JSNum version. -/
def isValidBitFieldInt (bitField : Int) : Bool :=
  if bitField < (MIN_VALID_PERMISSION : Int) || bitField > (MAX_VALID_PERMISSION : Int) then false
  else if bitField.natAbs > MAX_SAFE_INTEGER then false
  else true

theorem isValidBitFieldInt_iff (n : Int) :
    isValidBitFieldInt n = true ↔ 0 ≤ n ∧ n ≤ 4294967295 := by
  unfold isValidBitFieldInt MIN_VALID_PERMISSION MAX_VALID_PERMISSION MAX_SAFE_INTEGER
  split_ifs with h1 h2
  · simp only [Bool.or_eq_true, decide_eq_true_eq] at h1
    push_cast at h1
    simp only [Bool.false_eq_true, false_iff]
    omega
  · exfalso
    simp only [Bool.or_eq_true, decide_eq_true_eq, not_or, not_lt] at h1
    simp only [gt_iff_lt] at h2
    push_cast at h1
    omega
  · simp only [Bool.or_eq_true, decide_eq_true_eq, not_or, not_lt] at h1
    push_cast at h1
    simp only [true_iff]
    omega

theorem isValidBitField_num_iff (q : ℚ) :
    isValidBitField (JSNum.num q) = true ↔ q.den = 1 ∧ 0 ≤ q ∧ q ≤ 4294967295 := by
  have hq : q.den = 1 → ((q.num : ℚ)) = q := by
    intro hden
    rw [← Rat.num_div_den q, hden]
    simp
  unfold isValidBitField jsIsInteger jsIsFinite jsIsSafeInteger
  unfold MIN_VALID_PERMISSION MAX_VALID_PERMISSION MAX_SAFE_INTEGER
  split_ifs with h1 h2 h3
  · simp at h1
    simp [h1]
  · simp at h2
    simp only [Bool.false_eq_true, false_iff, not_and]
    intro _ h0 hm
    rcases h2 with h | h
    · linarith
    · linarith
  · exfalso
    simp at h1 h2 h3
    have hnl : 0 ≤ q.num := Rat.num_nonneg.mpr h2.1
    have hnr : q.num ≤ 4294967295 := by
      have hcast : (q.num : ℚ) ≤ ((4294967295 : Int) : ℚ) := by
        rw [hq h1]
        exact_mod_cast h2.2
      exact_mod_cast hcast
    rcases h3 with h | h
    · exact h h1
    · omega
  · simp at h1 h2
    simp [h1, h2.1, h2.2]

theorem isValidBitFieldInt_eq_isValidBitField (n : Int) :
    isValidBitFieldInt n = isValidBitField (JSNum.num (n : ℚ)) := by
  rw [Bool.eq_iff_iff, isValidBitFieldInt_iff, isValidBitField_num_iff]
  constructor
  · intro h
    refine ⟨Rat.den_intCast n, ?_, ?_⟩
    · exact_mod_cast h.1
    · exact_mod_cast h.2
  · intro h
    constructor
    · exact_mod_cast h.2.1
    · exact_mod_cast h.2.2

/-- isValidPermissionMask from src/core/validation.ts: identical rule. -/
def isValidPermissionMask (permission : Int) : Bool :=
  isValidBitFieldInt permission

/-- Reserved property names rejected as zone names (src/core/validation.ts). -/
def RESERVED_ZONE_NAMES : List String :=
  ["__proto__", "__defineGetter__", "__defineSetter__", "__lookupGetter__",
   "__lookupSetter__", "constructor", "hasOwnProperty", "isPrototypeOf",
   "propertyIsEnumerable", "toLocaleString", "toString", "valueOf"]

/-- Maximum allowed zone name length (src/core/validation.ts). -/
def MAX_ZONE_NAME_LENGTH : ℕ := 128

/-- Test of `zoneName.startsWith("_")`: the first character is an underscore. -/
def startsWithUnderscore (zoneName : String) : Bool :=
  zoneName.data.head? == some '_'

/-- Test of `zoneName.endsWith("_")`: the last character is an underscore. -/
def endsWithUnderscore (zoneName : String) : Bool :=
  zoneName.data.getLast? == some '_'

/-- isValidZoneName from src/core/validation.ts: non-empty, at most 128
characters, not reserved, and not starting or ending with an underscore.
The typeof-string guard of the source is vacuous for a typed String. -/
def isValidZoneName (zoneName : String) : Bool :=
  if zoneName.length == 0 then false
  else if zoneName.length > MAX_ZONE_NAME_LENGTH then false
  else if RESERVED_ZONE_NAMES.contains zoneName then false
  else if startsWithUnderscore zoneName || endsWithUnderscore zoneName then false
  else true

/-- validateZoneName from src/core/validation.ts: throws an
AccessControlException with status invalid_permission on an invalid name,
picking the first matching reason phrase. -/
def validateZoneName (zoneName : String) (context : String) : Except AccessControlError Unit :=
  if isValidZoneName zoneName then Except.ok ()
  else
    let reason :=
      if zoneName.length == 0 then "Must not be empty."
      else if zoneName.length > MAX_ZONE_NAME_LENGTH then "Must not exceed 128 characters."
      else if RESERVED_ZONE_NAMES.contains zoneName then
        s!"{zoneName} is a reserved property name and cannot be used as a zone name."
      else if startsWithUnderscore zoneName || endsWithUnderscore zoneName then
        "Must not start or end with underscore."
      else "Invalid zone name."
    Except.error { message := s!"Invalid {context}: {zoneName}. {reason}",
                   status := ErrorStatus.invalid_permission }

/-- validateBitField from src/core/validation.ts, restricted to integral
inputs; throws status invalid_permission with the first matching reason
(the finite-integer reason cannot fire for an `Int`). -/
def validateBitField (bitField : Int) (context : String) : Except AccessControlError Unit :=
  if isValidBitFieldInt bitField then Except.ok ()
  else
    let reason :=
      if bitField < (MIN_VALID_PERMISSION : Int) then "Must be non-negative."
      else if bitField > (MAX_VALID_PERMISSION : Int) then
        "Must not exceed 4294967295 (32-bit limit)."
      else if bitField.natAbs > MAX_SAFE_INTEGER then
        "Must be within JavaScript safe integer range."
      else "Invalid bitfield value."
    Except.error { message := s!"Invalid {context}: {bitField}. {reason}",
                   status := ErrorStatus.invalid_permission }

/-- validatePermissionMask from src/core/validation.ts. -/
def validatePermissionMask (permission : Int) (context : String) : Except AccessControlError Unit :=
  if isValidPermissionMask permission then Except.ok ()
  else
    let msg := s!"Invalid {context}: {permission}. Must be a valid permission mask or combination."
    Except.error { message := msg, status := ErrorStatus.invalid_permission }

/-- describeBitField from src/core/validation.ts: pipe-joined known flag
names (ADMIN, CREATE, READ, UPDATE, DELETE order) plus a CUSTOM token for
unknown bits. -/
def describeBitField (bitField : Int) : String :=
  if !(isValidBitFieldInt bitField) then s!"Invalid bitfield: {bitField}"
  else if bitField == 0 then "No permissions"
  else
    let knownBits := jsOr (jsOr (jsOr (jsOr PERMISSION_MASKS.ADMIN PERMISSION_MASKS.CREATE)
      PERMISSION_MASKS.READ) PERMISSION_MASKS.UPDATE) PERMISSION_MASKS.DELETE
    let unknownBits := jsAnd bitField (jsNot knownBits)
    let permissions :=
      (if jsAnd bitField PERMISSION_MASKS.ADMIN ≠ 0 then ["ADMIN"] else []) ++
      (if jsAnd bitField PERMISSION_MASKS.CREATE ≠ 0 then ["CREATE"] else []) ++
      (if jsAnd bitField PERMISSION_MASKS.READ ≠ 0 then ["READ"] else []) ++
      (if jsAnd bitField PERMISSION_MASKS.UPDATE ≠ 0 then ["UPDATE"] else []) ++
      (if jsAnd bitField PERMISSION_MASKS.DELETE ≠ 0 then ["DELETE"] else []) ++
      (if unknownBits ≠ 0 then [s!"CUSTOM({unknownBits})"] else [])
    String.intercalate " | " permissions

/-- validateAllowedPermissions from src/core/validation.ts: validates both
operands as bitfields (status invalid_permission on failure), then throws
status forbidden when the bitfield holds a bit outside the allowed mask. -/
def validateAllowedPermissions (bitField : Int) (allowedPermissions : Int)
    (context : String) : Except AccessControlError Unit := do
  validateBitField bitField (context ++ " bitfield")
  validateBitField allowedPermissions (context ++ " allowed permissions")
  let disallowedBits := jsAnd bitField (jsNot allowedPermissions)
  if disallowedBits ≠ 0 then
    let rq := describeBitField bitField
    let al := describeBitField allowedPermissions
    let dis := describeBitField disallowedBits
    let msg := s!"{context}: Bitfield contains disallowed permissions. Requested: {rq}, Allowed: {al}, Disallowed: {dis}"
    Except.error { message := msg, status := ErrorStatus.forbidden }
  else Except.ok ()

/-- Permission record from src/types/permissions.ts (five boolean flags). -/
structure Permission where
  create : Bool
  read : Bool
  update : Bool
  delete : Bool
  admin : Bool
deriving DecidableEq, Repr

/-- PermissionInput from src/types/permissions.ts: a Permission object or a
raw bitfield number. -/
inductive PermissionInput where
  | perm : Permission → PermissionInput
  | bits : Int → PermissionInput
deriving DecidableEq, Repr

/-- AccessZonePermission: zone-name-to-required-bitfield record, as an
association list. -/
abbrev AccessZonePermission := List (String × Int)

/-- NormalizedRole from src/types/roles.ts: id, name, and a zone-to-bitfield
record. -/
structure NormalizedRole where
  id : String
  name : String
  access : List (String × Int)
deriving DecidableEq, Repr

/-- BaseAccessZone from src/types/roles.ts (id and name). -/
structure BaseAccessZone where
  id : String
  name : String
deriving DecidableEq, Repr

/-- RoleZoneAccess from src/types/roles.ts: a zone paired with a permission
bitfield. -/
structure RoleZoneAccess where
  zone : BaseAccessZone
  permission : Int
deriving DecidableEq, Repr

/-- RoleWithAccess from src/types/roles.ts, restricted to the fields the
RBAC core reads (id, name, access). -/
structure RoleWithAccess where
  id : String
  name : String
  access : List RoleZoneAccess
deriving DecidableEq, Repr

/-- JavaScript property assignment `obj[k] = v` on an association list:
overwrite the first binding of k, else append a new binding. -/
def setKey (acc : List (String × Int)) (k : String) (v : Int) : List (String × Int) :=
  match acc with
  | [] => [(k, v)]
  | (k', v') :: rest => if k' = k then (k', v) :: rest else (k', v') :: setKey rest k v

/-- JavaScript `result[k] = (result[k] || 0) | v` on an association list:
OR v into the binding of k (missing or falsy binding read as 0). -/
def updateOr (acc : List (String × Int)) (k : String) (v : Int) : List (String × Int) :=
  match acc with
  | [] => [(k, jsOr 0 v)]
  | (k', v') :: rest => if k' = k then (k', jsOr v' v) :: rest else (k', v') :: updateOr rest k v

/-- toBitField from src/core/bitfield.ts: fold the mask of each true flag in
the order create, read, update, delete, admin with JS bitwise OR. -/
def toBitField (permission : Permission) : Int :=
  [(permission.create, PERMISSION_MASKS.CREATE),
   (permission.read, PERMISSION_MASKS.READ),
   (permission.update, PERMISSION_MASKS.UPDATE),
   (permission.delete, PERMISSION_MASKS.DELETE),
   (permission.admin, PERMISSION_MASKS.ADMIN)].foldl
    (fun accumPermissions p => jsOr accumPermissions (if p.1 then p.2 else 0)) 0

/-- fromBitField from src/core/bitfield.ts: validate, then test each known
mask bit with the `(MASK & b) === MASK` pattern. -/
def fromBitField (bitField : Int) : Except AccessControlError Permission := do
  validateBitField bitField "bitfield conversion input"
  Except.ok
    { create := jsAnd PERMISSION_MASKS.CREATE bitField == PERMISSION_MASKS.CREATE,
      read := jsAnd PERMISSION_MASKS.READ bitField == PERMISSION_MASKS.READ,
      update := jsAnd PERMISSION_MASKS.UPDATE bitField == PERMISSION_MASKS.UPDATE,
      delete := jsAnd PERMISSION_MASKS.DELETE bitField == PERMISSION_MASKS.DELETE,
      admin := jsAnd PERMISSION_MASKS.ADMIN bitField == PERMISSION_MASKS.ADMIN }

/-- normalizePermissionToBitField from src/core/bitfield.ts: validate a raw
number, or encode a Permission object. -/
def normalizePermissionToBitField (input : PermissionInput) : Except AccessControlError Int :=
  match input with
  | PermissionInput.bits n => do
      validateBitField n "permission input"
      Except.ok n
  | PermissionInput.perm p => Except.ok (toBitField p)

/-- hasPermission from src/core/bitfield.ts: validate both operands, then
test `(bitField & permission) === permission`. -/
def hasPermission (bitField : Int) (permission : Int) : Except AccessControlError Bool := do
  validateBitField bitField "permission bitfield"
  validatePermissionMask permission "permission mask"
  Except.ok (jsAnd bitField permission == permission)

/-- Context string used by normalizeRole for zone-name validation. -/
def zoneNameInRoleContext (roleName : String) : String :=
  s!"zone name in role {roleName}"

/-- Context string used by normalizeRole for bitfield validation. -/
def permissionForZoneContext (zoneName : String) : String :=
  s!"permission for zone {zoneName}"

/-- Inner loop of normalizeRole (src/core/roles.ts, hardened version): for
each zone entry validate the zone name (contextualised with the role name)
and the bitfield, then assign into the accumulating record. -/
def normalizeEntries (roleName : String) (entries : List RoleZoneAccess)
    (acc : List (String × Int)) : Except AccessControlError (List (String × Int)) :=
  match entries with
  | [] => Except.ok acc
  | roleAccess :: rest => do
      let zoneName := roleAccess.zone.name
      validateZoneName zoneName (zoneNameInRoleContext roleName)
      validateBitField roleAccess.permission (permissionForZoneContext zoneName)
      normalizeEntries roleName rest (setKey acc zoneName roleAccess.permission)

/-- normalizeRole from src/core/roles.ts (hardened version): validate every
(zone, bitfield) pair and build a safe zone-to-bitfield record. -/
def normalizeRole (role : RoleWithAccess) : Except AccessControlError NormalizedRole := do
  let access ← normalizeEntries role.name role.access []
  Except.ok { id := role.id, name := role.name, access := access }

/-- Inner loop of collapseRoles over one role: re-validate each entry and OR
its bitfield into the accumulator with `result[zone] = (result[zone] || 0) | permission`. -/
def collapseEntries (roleName : String) (entries : List (String × Int))
    (result : List (String × Int)) : Except AccessControlError (List (String × Int)) :=
  match entries with
  | [] => Except.ok result
  | (zoneName, permission) :: rest => do
      validateZoneName zoneName s!"zone name in role {roleName}"
      validateBitField permission s!"permission value for zone {zoneName} in role {roleName}"
      collapseEntries roleName rest (updateOr result zoneName permission)

/-- Outer loop of collapseRoles over the role list. -/
def collapseRolesAux (roles : List NormalizedRole)
    (result : List (String × Int)) : Except AccessControlError (List (String × Int)) :=
  match roles with
  | [] => Except.ok result
  | role :: rest => do
      let result' ← collapseEntries role.name role.access result
      collapseRolesAux rest result'

/-- collapseRoles from src/core/roles.ts (hardened version): OR-combine every
role's zone grants into one record, validating every entry on the way. -/
def collapseRoles (roles : List NormalizedRole) : Except AccessControlError (List (String × Int)) :=
  collapseRolesAux roles []

/-- UserWithZonePermissions from src/types/roles.ts, restricted to the
fields the evaluator reads. -/
structure UserWithZonePermissions where
  id : String
  email : Option String
  roles : List NormalizedRole
  access : List (String × Permission)
deriving DecidableEq, Repr

/-- Owner-carrying data passed to assertDataAccess
(`Partial<{userId: string}>`). -/
structure OwnedData where
  userId : Option String
deriving DecidableEq, Repr

/-- Item uid field: a plain string or an object with an id
(src/types/permissions.ts). -/
inductive ItemUid where
  | str : String → ItemUid
  | obj : String → Option String → ItemUid
deriving DecidableEq, Repr

/-- Per-user access entry of ItemAccessSettings. -/
structure ItemUserAccess where
  uid : String
  access : PermissionInput
deriving DecidableEq, Repr

/-- ItemAccessSettings from src/types/permissions.ts. -/
structure ItemAccessSettings where
  global : Option PermissionInput
  users : Option (List ItemUserAccess)
deriving DecidableEq, Repr

/-- Settings field of AccessControlledItem. -/
structure ItemSettings where
  access : Option ItemAccessSettings
  permissions : Option Int
deriving DecidableEq, Repr

/-- AccessControlledItem from src/types/permissions.ts. -/
structure AccessControlledItem where
  uid : Option ItemUid
  userId : Option String
  settings : Option ItemSettings
deriving DecidableEq, Repr

/-- checkPermission from src/core/permissions.ts applied to a single
requirement map: strip zero-valued entries, succeed vacuously when nothing
is left, otherwise collapse the roles and count the fully covered zones. -/
def checkPermission (needed : AccessZonePermission) (currentRoles : List NormalizedRole) :
    Except AccessControlError Bool :=
  let neededCopy := needed.filter (fun p => !(p.2 == 0))
  let numPermissionsNeeded := neededCopy.length
  if numPermissionsNeeded == 0 then Except.ok true
  else do
    let currentPermissions ← collapseRoles currentRoles
    let accessCount := (neededCopy.filter (fun p =>
      let userPermissions := (List.lookup p.1 currentPermissions).getD 0
      jsAnd p.2 userPermissions == p.2)).length
    Except.ok (accessCount == numPermissionsNeeded)

/-- Behaviour of checkPermission (src/core/permissions.ts) when the `needed`
argument is a JavaScript ARRAY of candidate maps. The object spread of an
array produces an index-keyed object whose values are the candidate map
objects, so: no value strict-equals 0, the entry count is the array length,
an empty array therefore passes vacuously, and for a non-empty array every
per-entry test `(neededAccessBits & userPermissions) === neededAccessBits`
compares a number against a map object and is false (ToInt32 of a plain
object is 0, and a number is never strictly equal to an object), so the
call collapses the roles and returns false. -/
def checkPermissionList (needed : List AccessZonePermission)
    (currentRoles : List NormalizedRole) : Except AccessControlError Bool :=
  if needed.length == 0 then Except.ok true
  else do
    let _ ← collapseRoles currentRoles
    Except.ok false

/-- assertAccess from src/core/permissions.ts: throw an
AccessControlException with status unauthorized when checkPermission denies. -/
def assertAccess (needed : AccessZonePermission) (currentRoles : List NormalizedRole) :
    Except AccessControlError Unit := do
  let ok ← checkPermission needed currentRoles
  if ok then Except.ok ()
  else Except.error { message := "Not authenticated", status := ErrorStatus.unauthorized }

/-- assertDataAccess from src/core/permissions.ts: grant when the data
carries the caller id (`data?.userId === user.id`), otherwise delegate to
checkPermission and throw a plain Error("Unauthorized") on denial. -/
def assertDataAccess (data : Option OwnedData) (accessNeeded : AccessZonePermission)
    (user : UserWithZonePermissions) : Except ThrownError Bool :=
  let ownerMatch : Bool :=
    match data with
    | some d => d.userId == some user.id
    | none => false
  if ownerMatch then Except.ok true
  else
    match checkPermission accessNeeded user.roles with
    | Except.ok true => Except.ok true
    | Except.ok false => Except.error (ThrownError.js "Unauthorized")
    | Except.error e => Except.error (ThrownError.ac e)

/-- User argument of getUserPermissions: id plus roles. -/
structure UserIdRoles where
  id : String
  roles : List NormalizedRole
deriving DecidableEq, Repr

/-- Truthy owner id of an item: `item.uid` must be truthy (a non-empty
string or an object), and an object owner contributes its id field. -/
def itemOwnerMatch (item : AccessControlledItem) (userId : String) : Bool :=
  match item.uid with
  | some (ItemUid.str s) => !(s == "") && s == userId
  | some (ItemUid.obj i _) => i == userId
  | none => false

/-- getUserPermissions from src/core/permissions.ts: inside the
access-settings branch check ownership, then per-user overrides, then
role aggregation restricted by the optional global override; without
access settings fall back to plain role aggregation for the zone. -/
def getUserPermissions (user : UserIdRoles) (item : AccessControlledItem)
    (zoneKey : String) : Except AccessControlError Permission :=
  match item.settings.bind (fun s => s.access) with
  | some acc =>
      if itemOwnerMatch item user.id then fromBitField PERMISSION_MASKS.ADMIN
      else
        match (acc.users.getD []).find? (fun accessUser => accessUser.uid == user.id) with
        | some userLevelAccess =>
            match userLevelAccess.access with
            | PermissionInput.bits n => fromBitField n
            | PermissionInput.perm p => Except.ok p
        | none => do
            let userPermissions ← collapseRoles user.roles
            let zonePermissions := (List.lookup zoneKey userPermissions).getD 0
            match acc.global with
            | some g => do
                let globalBitField ← normalizePermissionToBitField g
                fromBitField (jsAnd zonePermissions globalBitField)
            | none => fromBitField zonePermissions
  | none => do
      let userPermissions ← collapseRoles user.roles
      fromBitField ((List.lookup zoneKey userPermissions).getD 0)

theorem toUint32_lt (n : Int) : toUint32 n < 4294967296 := by
  unfold toUint32
  omega

theorem toUint32_ofUint32 {u : ℕ} (h : u < 4294967296) : toUint32 (ofUint32 u) = u := by
  unfold toUint32 ofUint32
  split <;> omega

theorem toUint32_zero : toUint32 0 = 0 := rfl

theorem ofUint32_small {u : ℕ} (h : u < 2147483648) : ofUint32 u = (u : Int) := by
  unfold ofUint32
  rw [if_pos h]

theorem jsOr_comm (a b : Int) : jsOr a b = jsOr b a := by
  unfold jsOr
  rw [Nat.or_comm]

theorem jsAnd_comm (a b : Int) : jsAnd a b = jsAnd b a := by
  unfold jsAnd
  rw [Nat.and_comm]

/-- Accumulated unsigned value of OR-folding a list of integral JS numbers. -/
def natOrFold (vs : List Int) : ℕ := vs.foldl (fun u v => u ||| toUint32 v) 0

theorem foldl_lor_seed (vs : List Int) (s : ℕ) :
    vs.foldl (fun u v => u ||| toUint32 v) s = s ||| natOrFold vs := by
  induction vs generalizing s with
  | nil => simp [natOrFold]
  | cons v rest ih =>
    show List.foldl _ (s ||| toUint32 v) rest = _
    rw [ih (s ||| toUint32 v)]
    have h0 : natOrFold (v :: rest) = (0 ||| toUint32 v) ||| natOrFold rest := by
      show List.foldl _ (0 ||| toUint32 v) rest = _
      rw [ih (0 ||| toUint32 v)]
    rw [h0, Nat.zero_or, Nat.or_assoc]

theorem natOrFold_append (xs ys : List Int) :
    natOrFold (xs ++ ys) = natOrFold xs ||| natOrFold ys := by
  unfold natOrFold
  rw [List.foldl_append]
  exact foldl_lor_seed ys _

theorem natOrFold_lt (vs : List Int) : natOrFold vs < 4294967296 := by
  induction vs with
  | nil => simp [natOrFold]
  | cons v rest ih =>
    have h1 : natOrFold (v :: rest) = (0 ||| toUint32 v) ||| natOrFold rest := by
      show List.foldl _ (0 ||| toUint32 v) rest = _
      exact foldl_lor_seed rest _
    rw [h1, Nat.zero_or]
    have h2 : (4294967296 : ℕ) = 2 ^ 32 := by norm_num
    rw [h2] at ih ⊢
    exact Nat.or_lt_two_pow (h2 ▸ toUint32_lt v) ih

theorem foldl_jsOr_ofUint32 (vs : List Int) (u : ℕ) (h : u < 4294967296) :
    vs.foldl jsOr (ofUint32 u) = ofUint32 (vs.foldl (fun a v => a ||| toUint32 v) u) := by
  induction vs generalizing u with
  | nil => rfl
  | cons v rest ih =>
    show List.foldl jsOr (jsOr (ofUint32 u) v) rest = _
    have hstep : jsOr (ofUint32 u) v = ofUint32 (u ||| toUint32 v) := by
      unfold jsOr
      rw [toUint32_ofUint32 h]
    have hlt : u ||| toUint32 v < 4294967296 := by
      have h2 : (4294967296 : ℕ) = 2 ^ 32 := by norm_num
      rw [h2]
      exact Nat.or_lt_two_pow (h2 ▸ h) (h2 ▸ toUint32_lt v)
    rw [hstep, ih _ hlt]
    rfl

/-- Values bound to zone z among a list of record entries, in entry order. -/
def zoneVals (entries : List (String × Int)) (z : String) : List Int :=
  entries.filterMap (fun p => if p.1 = z then some p.2 else none)

/-- Per-zone effect of a sequence of `updateOr` assignments on the binding of
one zone. -/
def applyZone (vs : List Int) (o : Option Int) : Option Int :=
  vs.foldl (fun acc v => some (jsOr (acc.getD 0) v)) o

theorem applyZone_append (xs ys : List Int) (o : Option Int) :
    applyZone (xs ++ ys) o = applyZone ys (applyZone xs o) := by
  unfold applyZone
  rw [List.foldl_append]

theorem lookup_updateOr (acc : List (String × Int)) (k : String) (v : Int) (z : String) :
    List.lookup z (updateOr acc k v) =
      if z = k then some (jsOr ((List.lookup z acc).getD 0) v) else List.lookup z acc := by
  induction acc with
  | nil =>
    by_cases hz : z = k
    · have hb : (z == k) = true := beq_iff_eq.mpr hz
      simp [updateOr, List.lookup, hb, hz]
    · have hb : (z == k) = false := beq_eq_false_iff_ne.mpr hz
      simp [updateOr, List.lookup, hb, hz]
  | cons p rest ih =>
    obtain ⟨k', v'⟩ := p
    by_cases hk : k' = k
    · subst hk
      by_cases hz : z = k'
      · subst hz
        have hb : (z == z) = true := beq_iff_eq.mpr rfl
        simp [updateOr, List.lookup, hb]
      · have hb : (z == k') = false := beq_eq_false_iff_ne.mpr hz
        simp [updateOr, List.lookup, hb, hz]
    · by_cases hz : z = k'
      · subst hz
        have hzk : ¬ (z = k) := hk
        have hb : (z == z) = true := beq_iff_eq.mpr rfl
        simp [updateOr, hk, List.lookup, hb, hzk]
      · have hb : (z == k') = false := beq_eq_false_iff_ne.mpr hz
        simp only [updateOr, if_neg hk, List.lookup, hb]
        exact ih

/-- Pure accumulation effect of the collapse inner loop when no entry fails
validation. -/
def applyEntries (entries : List (String × Int)) (acc : List (String × Int)) :
    List (String × Int) :=
  entries.foldl (fun a p => updateOr a p.1 p.2) acc

theorem lookup_applyEntries (entries : List (String × Int)) (acc : List (String × Int))
    (z : String) :
    List.lookup z (applyEntries entries acc) = applyZone (zoneVals entries z) (List.lookup z acc) := by
  induction entries generalizing acc with
  | nil => rfl
  | cons p rest ih =>
    obtain ⟨k, v⟩ := p
    show List.lookup z (applyEntries rest (updateOr acc k v)) = _
    rw [ih (updateOr acc k v)]
    by_cases hz : k = z
    · have hzv : zoneVals ((k, v) :: rest) z = v :: zoneVals rest z := by
        simp [zoneVals, hz]
      rw [hzv]
      show applyZone (zoneVals rest z) _ =
        applyZone (zoneVals rest z) (some (jsOr (((List.lookup z acc).getD 0)) v))
      rw [lookup_updateOr, if_pos hz.symm]
    · have hzv : zoneVals ((k, v) :: rest) z = zoneVals rest z := by
        simp only [zoneVals, List.filterMap_cons]
        rw [if_neg hz]
      rw [hzv, lookup_updateOr]
      have hne : ¬ (z = k) := fun h => hz h.symm
      rw [if_neg hne]

/-- Both validation results of collapse and the resulting entries are valid. -/
def entryOk (p : String × Int) : Prop :=
  isValidZoneName p.1 = true ∧ isValidBitFieldInt p.2 = true

instance (p : String × Int) : Decidable (entryOk p) := by
  unfold entryOk
  infer_instance

theorem validateZoneName_ok_iff (s ctx : String) :
    validateZoneName s ctx = Except.ok () ↔ isValidZoneName s = true := by
  unfold validateZoneName
  split_ifs with h
  · simp [h]
  · simp [h]

theorem validateBitField_ok_iff (n : Int) (ctx : String) :
    validateBitField n ctx = Except.ok () ↔ isValidBitFieldInt n = true := by
  unfold validateBitField
  split_ifs with h
  · simp [h]
  · simp [h]

theorem validateZoneName_error_status (s ctx : String) (e : AccessControlError)
    (h : validateZoneName s ctx = Except.error e) : e.status = ErrorStatus.invalid_permission := by
  unfold validateZoneName at h
  split_ifs at h
  all_goals injection h with h2
  all_goals rw [← h2]

theorem validateBitField_error_status (n : Int) (ctx : String) (e : AccessControlError)
    (h : validateBitField n ctx = Except.error e) : e.status = ErrorStatus.invalid_permission := by
  unfold validateBitField at h
  split_ifs at h
  all_goals injection h with h2
  all_goals rw [← h2]

theorem collapseEntries_ok_iff (roleName : String) (entries : List (String × Int))
    (acc m : List (String × Int)) :
    collapseEntries roleName entries acc = Except.ok m ↔
      ((∀ p ∈ entries, entryOk p) ∧ m = applyEntries entries acc) := by
  induction entries generalizing acc with
  | nil =>
    simp [collapseEntries, applyEntries, eq_comm]
  | cons p rest ih =>
    obtain ⟨zn, v⟩ := p
    by_cases hz : isValidZoneName zn = true
    · by_cases hv : isValidBitFieldInt v = true
      · have hzok : validateZoneName zn s!"zone name in role {roleName}" = Except.ok () :=
          (validateZoneName_ok_iff _ _).mpr hz
        have hvok : validateBitField v s!"permission value for zone {zn} in role {roleName}" =
            Except.ok () := (validateBitField_ok_iff _ _).mpr hv
        show (do
          validateZoneName zn s!"zone name in role {roleName}"
          validateBitField v s!"permission value for zone {zn} in role {roleName}"
          collapseEntries roleName rest (updateOr acc zn v)) = Except.ok m ↔ _
        rw [hzok, hvok]
        show collapseEntries roleName rest (updateOr acc zn v) = Except.ok m ↔ _
        rw [ih (updateOr acc zn v)]
        constructor
        · rintro ⟨hall, hm⟩
          exact ⟨by
            intro q hq
            rcases List.mem_cons.mp hq with h | h
            · subst h
              exact ⟨hz, hv⟩
            · exact hall q h, hm⟩
        · rintro ⟨hall, hm⟩
          exact ⟨fun q hq => hall q (List.mem_cons_of_mem _ hq), hm⟩
      · cases hcase : validateBitField v s!"permission value for zone {zn} in role {roleName}" with
        | ok u =>
          exfalso
          cases u
          exact hv ((validateBitField_ok_iff _ _).mp hcase)
        | error e =>
          have hzok : validateZoneName zn s!"zone name in role {roleName}" = Except.ok () :=
            (validateZoneName_ok_iff _ _).mpr hz
          show (do
            validateZoneName zn s!"zone name in role {roleName}"
            validateBitField v s!"permission value for zone {zn} in role {roleName}"
            collapseEntries roleName rest (updateOr acc zn v)) = Except.ok m ↔ _
          rw [hzok, hcase]
          show (Except.error e : Except AccessControlError (List (String × Int))) = Except.ok m ↔ _
          constructor
          · intro h
            exact Except.noConfusion h
          · rintro ⟨hall, _⟩
            exact absurd (hall (zn, v) (List.mem_cons_self _ _)).2 hv
    · cases hcase : validateZoneName zn s!"zone name in role {roleName}" with
      | ok u =>
        exfalso
        cases u
        exact hz ((validateZoneName_ok_iff _ _).mp hcase)
      | error e =>
        show (do
          validateZoneName zn s!"zone name in role {roleName}"
          validateBitField v s!"permission value for zone {zn} in role {roleName}"
          collapseEntries roleName rest (updateOr acc zn v)) = Except.ok m ↔ _
        rw [hcase]
        show (Except.error e : Except AccessControlError (List (String × Int))) = Except.ok m ↔ _
        constructor
        · intro h
          exact Except.noConfusion h
        · rintro ⟨hall, _⟩
          exact absurd (hall (zn, v) (List.mem_cons_self _ _)).1 hz

/-- Pure accumulation effect of collapseRolesAux when every entry is valid. -/
def applyRoles (roles : List NormalizedRole) (acc : List (String × Int)) :
    List (String × Int) :=
  roles.foldl (fun a r => applyEntries r.access a) acc

theorem collapseRolesAux_ok_iff (roles : List NormalizedRole) (acc m : List (String × Int)) :
    collapseRolesAux roles acc = Except.ok m ↔
      ((∀ r ∈ roles, ∀ p ∈ r.access, entryOk p) ∧ m = applyRoles roles acc) := by
  induction roles generalizing acc with
  | nil =>
    simp [collapseRolesAux, applyRoles, eq_comm]
  | cons role rest ih =>
    by_cases hall : ∀ p ∈ role.access, entryOk p
    · have hok : collapseEntries role.name role.access acc =
          Except.ok (applyEntries role.access acc) :=
        (collapseEntries_ok_iff _ _ _ _).mpr ⟨hall, rfl⟩
      show (do
        let result' ← collapseEntries role.name role.access acc
        collapseRolesAux rest result') = Except.ok m ↔ _
      rw [hok]
      show collapseRolesAux rest (applyEntries role.access acc) = Except.ok m ↔ _
      rw [ih (applyEntries role.access acc)]
      constructor
      · rintro ⟨h1, h2⟩
        refine ⟨?_, h2⟩
        intro r hr
        rcases List.mem_cons.mp hr with h | h
        · subst h
          exact hall
        · exact h1 r h
      · rintro ⟨h1, h2⟩
        exact ⟨fun r hr => h1 r (List.mem_cons_of_mem _ hr), h2⟩
    · cases hcase : collapseEntries role.name role.access acc with
      | ok acc' =>
        exfalso
        exact hall ((collapseEntries_ok_iff _ _ _ _).mp hcase).1
      | error e =>
        show (do
          let result' ← collapseEntries role.name role.access acc
          collapseRolesAux rest result') = Except.ok m ↔ _
        rw [hcase]
        show (Except.error e : Except AccessControlError (List (String × Int))) = Except.ok m ↔ _
        constructor
        · intro h
          exact Except.noConfusion h
        · rintro ⟨h1, _⟩
          exact absurd (fun p hp => h1 role (List.mem_cons_self _ _) p hp) hall

/-- Values bound to zone z across all roles, in iteration order. -/
def rolesZoneVals (roles : List NormalizedRole) (z : String) : List Int :=
  match roles with
  | [] => []
  | r :: rest => zoneVals r.access z ++ rolesZoneVals rest z

theorem lookup_applyRoles (roles : List NormalizedRole) (acc : List (String × Int)) (z : String) :
    List.lookup z (applyRoles roles acc) = applyZone (rolesZoneVals roles z) (List.lookup z acc) := by
  induction roles generalizing acc with
  | nil => rfl
  | cons role rest ih =>
    show List.lookup z (applyRoles rest (applyEntries role.access acc)) = _
    rw [ih (applyEntries role.access acc), lookup_applyEntries]
    show _ = applyZone (zoneVals role.access z ++ rolesZoneVals rest z) (List.lookup z acc)
    rw [applyZone_append]

theorem collapseRoles_ok_iff (roles : List NormalizedRole) (m : List (String × Int)) :
    collapseRoles roles = Except.ok m ↔
      ((∀ r ∈ roles, ∀ p ∈ r.access, entryOk p) ∧ m = applyRoles roles []) := by
  unfold collapseRoles
  exact collapseRolesAux_ok_iff roles [] m

theorem lookup_collapseRoles (roles : List NormalizedRole) (m : List (String × Int))
    (h : collapseRoles roles = Except.ok m) (z : String) :
    List.lookup z m = applyZone (rolesZoneVals roles z) none := by
  obtain ⟨-, hm⟩ := (collapseRoles_ok_iff roles m).mp h
  subst hm
  rw [lookup_applyRoles]
  rfl

theorem applyZone_some (vs : List Int) (x : Int) :
    applyZone vs (some x) = some (vs.foldl jsOr x) := by
  induction vs generalizing x with
  | nil => rfl
  | cons v rest ih =>
    show applyZone rest (some (jsOr x v)) = _
    rw [ih (jsOr x v)]
    rfl

theorem applyZone_none (vs : List Int) :
    applyZone vs none = if vs.isEmpty then none else some (ofUint32 (natOrFold vs)) := by
  cases vs with
  | nil => rfl
  | cons v rest =>
    show applyZone rest (some (jsOr 0 v)) = _
    rw [applyZone_some]
    simp only [List.isEmpty_cons, if_neg]
    have hj : jsOr 0 v = ofUint32 (0 ||| toUint32 v) := by
      unfold jsOr
      rw [toUint32_zero]
    have hlt : 0 ||| toUint32 v < 4294967296 := by
      rw [Nat.zero_or]
      exact toUint32_lt v
    rw [hj, foldl_jsOr_ofUint32 rest _ hlt]
    have : natOrFold (v :: rest) = List.foldl (fun a w => a ||| toUint32 w) (0 ||| toUint32 v) rest := rfl
    rw [this]
    simp

theorem isEmpty_append_comm (xs ys : List Int) : (xs ++ ys).isEmpty = (ys ++ xs).isEmpty := by
  cases xs <;> cases ys <;> simp [List.isEmpty]

theorem rolesZoneVals_pair (A B : NormalizedRole) (z : String) :
    rolesZoneVals [A, B] z = zoneVals A.access z ++ zoneVals B.access z := by
  simp [rolesZoneVals]

theorem collapseRoles_pair_isOk (A B : NormalizedRole) :
    (collapseRoles [A, B]).isOk = (collapseRoles [B, A]).isOk := by
  by_cases h : (∀ r ∈ [A, B], ∀ p ∈ r.access, entryOk p)
  · have hAB : collapseRoles [A, B] = Except.ok (applyRoles [A, B] []) :=
      (collapseRoles_ok_iff _ _).mpr ⟨h, rfl⟩
    have hBA : collapseRoles [B, A] = Except.ok (applyRoles [B, A] []) :=
      (collapseRoles_ok_iff _ _).mpr ⟨by
        intro r hr
        rcases List.mem_cons.mp hr with h1 | h1
        · exact h r (by simp [h1])
        · exact h r (by
            rcases List.mem_singleton.mp h1 with h2
            simp [h2]), rfl⟩
    rw [hAB, hBA]
    rfl
  · have hab : ∀ (m : List (String × Int)), ¬ collapseRoles [A, B] = Except.ok m := by
      intro m hm
      exact h ((collapseRoles_ok_iff _ _).mp hm).1
    have hba : ∀ (m : List (String × Int)), ¬ collapseRoles [B, A] = Except.ok m := by
      intro m hm
      refine h ?_
      intro r hr p hp
      have hmem : r ∈ [B, A] := by
        rcases List.mem_cons.mp hr with h1 | h1
        · simp [h1]
        · rcases List.mem_singleton.mp h1 with h2
          simp [h2]
      exact ((collapseRoles_ok_iff _ _).mp hm).1 r hmem p hp
    cases hcab : collapseRoles [A, B] with
    | ok m => exact absurd hcab (hab m)
    | error e =>
      cases hcba : collapseRoles [B, A] with
      | ok m => exact absurd hcba (hba m)
      | error e2 => rfl

/-- C3: collapseRoles([A, B]) and collapseRoles([B, A]) succeed together and,
when they succeed, bind the same bitfield to every zone; collapseRoles([r, r])
agrees with collapseRoles([r]) on every zone. -/
theorem claim_C3_collapseRoles_order_and_idempotence :
    (∀ A B : NormalizedRole, (collapseRoles [A, B]).isOk = (collapseRoles [B, A]).isOk)
    ∧ (∀ (A B : NormalizedRole) (m₁ m₂ : List (String × Int)),
        collapseRoles [A, B] = Except.ok m₁ → collapseRoles [B, A] = Except.ok m₂ →
        ∀ z, List.lookup z m₁ = List.lookup z m₂)
    ∧ (∀ (r : NormalizedRole) (m₁ m₂ : List (String × Int)),
        collapseRoles [r, r] = Except.ok m₁ → collapseRoles [r] = Except.ok m₂ →
        ∀ z, List.lookup z m₁ = List.lookup z m₂) := by
  refine ⟨collapseRoles_pair_isOk, ?_, ?_⟩
  · intro A B m₁ m₂ h1 h2 z
    rw [lookup_collapseRoles _ _ h1 z, lookup_collapseRoles _ _ h2 z]
    rw [rolesZoneVals_pair, rolesZoneVals_pair]
    rw [applyZone_none, applyZone_none]
    rw [isEmpty_append_comm (zoneVals A.access z) (zoneVals B.access z)]
    rw [natOrFold_append, natOrFold_append, Nat.or_comm]
  · intro r m₁ m₂ h1 h2 z
    rw [lookup_collapseRoles _ _ h1 z, lookup_collapseRoles _ _ h2 z]
    have hrr : rolesZoneVals [r, r] z = zoneVals r.access z ++ zoneVals r.access z :=
      rolesZoneVals_pair r r z
    have hr1 : rolesZoneVals [r] z = zoneVals r.access z := by
      simp [rolesZoneVals]
    rw [hrr, hr1, applyZone_none, applyZone_none]
    have hemp : (zoneVals r.access z ++ zoneVals r.access z).isEmpty = (zoneVals r.access z).isEmpty := by
      cases zoneVals r.access z <;> simp [List.isEmpty]
    rw [hemp, natOrFold_append, Nat.or_self]

/-- Concrete order-independence instance discharging the hypotheses of the
C3 theorem. -/
theorem claim_C3_witness :
    List.lookup "x" [("x", (3 : Int))] = List.lookup "x" [("x", (3 : Int))] :=
  claim_C3_collapseRoles_order_and_idempotence.2.1
    { id := "a", name := "A", access := [("x", 1)] }
    { id := "b", name := "B", access := [("x", 2)] }
    [("x", 3)] [("x", 3)] (by decide) (by decide) "x"

theorem mem_zoneVals {entries : List (String × Int)} {z : String} {v : Int}
    (h : v ∈ zoneVals entries z) : (z, v) ∈ entries := by
  unfold zoneVals at h
  rcases List.mem_filterMap.mp h with ⟨p, hp, hpv⟩
  by_cases hz : p.1 = z
  · rw [if_pos hz] at hpv
    have hv2 : p.2 = v := by
      simpa using hpv
    have : p = (z, v) := by
      rcases p with ⟨a, b⟩
      simp only at hz hv2
      rw [hz, hv2]
    rw [← this]
    exact hp
  · rw [if_neg hz] at hpv
    exact absurd hpv (by simp)

theorem mem_rolesZoneVals {roles : List NormalizedRole} {z : String} {v : Int}
    (h : v ∈ rolesZoneVals roles z) : ∃ r ∈ roles, (z, v) ∈ r.access := by
  induction roles with
  | nil => exact absurd h (by simp [rolesZoneVals])
  | cons r rest ih =>
    rcases List.mem_append.mp h with h1 | h1
    · exact ⟨r, List.mem_cons_self _ _, mem_zoneVals h1⟩
    · rcases ih h1 with ⟨r2, hr2, hz2⟩
      exact ⟨r2, List.mem_cons_of_mem _ hr2, hz2⟩

theorem toUint32_small {v : Int} (h0 : 0 ≤ v) (h1 : v < 2147483648) :
    toUint32 v < 2147483648 := by
  unfold toUint32
  omega

theorem natOrFold_lt_of_small (vs : List Int)
    (h : ∀ v ∈ vs, 0 ≤ v ∧ v < 2147483648) : natOrFold vs < 2147483648 := by
  induction vs with
  | nil => simp [natOrFold]
  | cons v rest ih =>
    have hv := h v (List.mem_cons_self _ _)
    have hstep : natOrFold (v :: rest) = (0 ||| toUint32 v) ||| natOrFold rest := by
      show List.foldl _ (0 ||| toUint32 v) rest = _
      exact foldl_lor_seed rest _
    rw [hstep, Nat.zero_or]
    have h31 : (2147483648 : ℕ) = 2 ^ 31 := by norm_num
    rw [h31]
    exact Nat.or_lt_two_pow (h31 ▸ toUint32_small hv.1 hv.2)
      (h31 ▸ ih (fun w hw => h w (List.mem_cons_of_mem _ hw)))

/-- C10 (amended): when every access value of the roles is a valid bitfield
below 2^31, every zone value of a successful collapseRoles result is itself
a valid bitfield. -/
theorem claim_C10_collapseRoles_preserves_validity (roles : List NormalizedRole)
    (m : List (String × Int))
    (hok : collapseRoles roles = Except.ok m)
    (hsmall : ∀ r ∈ roles, ∀ p ∈ r.access,
      isValidBitFieldInt p.2 = true ∧ p.2 < 2147483648) :
    ∀ z v, List.lookup z m = some v → isValidBitFieldInt v = true := by
  intro z v hv
  rw [lookup_collapseRoles roles m hok z, applyZone_none] at hv
  by_cases he : (rolesZoneVals roles z).isEmpty
  · rw [if_pos he] at hv
    exact absurd hv (by simp)
  · rw [if_neg he] at hv
    have hveq : v = ofUint32 (natOrFold (rolesZoneVals roles z)) := by
      have := hv
      simp only [Option.some.injEq] at this
      exact this.symm
    have hallsmall : ∀ w ∈ rolesZoneVals roles z, 0 ≤ w ∧ w < 2147483648 := by
      intro w hw
      rcases mem_rolesZoneVals hw with ⟨r, hr, hzw⟩
      have hp := hsmall r hr (z, w) hzw
      have hrange := (isValidBitFieldInt_iff w).mp hp.1
      exact ⟨hrange.1, hp.2⟩
    have hlt := natOrFold_lt_of_small _ hallsmall
    rw [hveq, ofUint32_small hlt]
    rw [isValidBitFieldInt_iff]
    constructor
    · exact Int.ofNat_nonneg _
    · exact_mod_cast Nat.le_of_lt (Nat.lt_of_lt_of_le hlt (by norm_num))

/-- C10 counterexample: the access value 0xFFFFFFFF is a valid bitfield, yet
collapseRoles maps it through the 32-bit signed OR to -1, which is not. -/
theorem claim_C10_counterexample :
    isValidBitField (JSNum.num 4294967295) = true
    ∧ collapseRoles [{ id := "r", name := "r", access := [("z", 4294967295)] }] =
        Except.ok [("z", -1)]
    ∧ isValidBitField (JSNum.num (-1)) = false := by
  refine ⟨by decide, by decide, by decide⟩

/-- Concrete instance discharging the hypotheses of the amended C10 theorem. -/
theorem claim_C10_witness : isValidBitFieldInt 5 = true :=
  claim_C10_collapseRoles_preserves_validity
    [{ id := "r", name := "r", access := [("z", 5)] }] [("z", 5)]
    (by decide) (by decide) "z" 5 (by decide)

theorem length_filter_eq_length_iff {α : Type} (p : α → Bool) (l : List α) :
    (l.filter p).length = l.length ↔ ∀ a ∈ l, p a = true := by
  induction l with
  | nil => simp
  | cons a rest ih =>
    by_cases hpa : p a = true
    · rw [List.filter_cons_of_pos hpa]
      simp only [List.length_cons, Nat.succ_inj, ih, List.forall_mem_cons, hpa, true_and]
    · rw [List.filter_cons_of_neg (by simpa using hpa)]
      have hle := List.length_filter_le p rest
      constructor
      · intro hlen
        exfalso
        rw [List.length_cons] at hlen
        omega
      · intro hall
        exact absurd (hall a (List.mem_cons_self _ _)) hpa

/-- C2: checkPermission on a single requirement map strips zero-valued
entries, passes vacuously when nothing remains (so the empty map and any
all-zero map always pass), and otherwise passes exactly when every remaining
zone requirement is fully covered by the aggregated permissions. -/
theorem claim_C2_checkPermission_single_map :
    (∀ roles, checkPermission [] roles = Except.ok true)
    ∧ (∀ z roles, checkPermission [(z, 0)] roles = Except.ok true)
    ∧ (∀ needed roles agg, collapseRoles roles = Except.ok agg →
        (checkPermission needed roles = Except.ok true ↔
          ∀ p ∈ needed.filter (fun q => !(q.2 == 0)),
            jsAnd ((List.lookup p.1 agg).getD 0) p.2 = p.2)) := by
  refine ⟨fun roles => rfl, ?_, ?_⟩
  · intro z roles
    unfold checkPermission
    simp
  · intro needed roles agg h
    unfold checkPermission
    by_cases hL : ((needed.filter (fun q => !(q.2 == 0))).length == 0) = true
    · rw [if_pos hL]
      simp only [beq_iff_eq, List.length_eq_zero] at hL
      simp [hL]
    · rw [if_neg (by simpa using hL)]
      show (do
        let currentPermissions ← collapseRoles roles
        Except.ok (((needed.filter (fun q => !(q.2 == 0))).filter (fun p =>
          jsAnd p.2 ((List.lookup p.1 currentPermissions).getD 0) == p.2)).length ==
            (needed.filter (fun q => !(q.2 == 0))).length)) = Except.ok true ↔ _
      rw [h]
      show Except.ok (((needed.filter (fun q => !(q.2 == 0))).filter (fun p =>
          jsAnd p.2 ((List.lookup p.1 agg).getD 0) == p.2)).length ==
            (needed.filter (fun q => !(q.2 == 0))).length) = Except.ok true ↔ _
      constructor
      · intro hok
        have hb : (((needed.filter (fun q => !(q.2 == 0))).filter (fun p =>
            jsAnd p.2 ((List.lookup p.1 agg).getD 0) == p.2)).length ==
              (needed.filter (fun q => !(q.2 == 0))).length) = true := by
          injection hok
        rw [beq_iff_eq] at hb
        intro p hp
        have := (length_filter_eq_length_iff _ _).mp hb p hp
        rw [beq_iff_eq] at this
        rw [jsAnd_comm]
        exact this
      · intro hall
        have hb := (length_filter_eq_length_iff (fun p =>
            jsAnd p.2 ((List.lookup p.1 agg).getD 0) == p.2)
            (needed.filter (fun q => !(q.2 == 0)))).mpr (by
          intro p hp
          rw [beq_iff_eq, jsAnd_comm]
          exact hall p hp)
        rw [hb]
        simp

/-- Concrete instance discharging the hypothesis of the C2 theorem: a role
granting READ and UPDATE on content satisfies a READ requirement. -/
theorem claim_C2_witness :
    checkPermission [("content", 4)]
      [{ id := "1", name := "Editor", access := [("content", 6)] }] = Except.ok true :=
  (claim_C2_checkPermission_single_map.2.2 [("content", 4)]
    [{ id := "1", name := "Editor", access := [("content", 6)] }]
    [("content", 6)] (by decide)).mpr (by decide)

/-- C1: evaluation of the OR-list calling convention on the code. A single
candidate map that is satisfied passes on its own, yet wrapping candidates
in a list makes every non-empty list fail (the array is spread into an
index-keyed object and no index entry can pass the strict-equality bit
test), while the empty list still passes vacuously. The repository's own
test suite (src/__tests__/permissions.test.ts) and README instead require
the OR-list to pass when any candidate passes. -/
theorem claim_C1_or_list_evaluation :
    checkPermission [("content", 4)]
      [{ id := "1", name := "Editor", access := [("content", 6)] }] = Except.ok true
    ∧ checkPermissionList [[("content", 1)], [("content", 4)]]
      [{ id := "1", name := "Editor", access := [("content", 6)] }] = Except.ok false
    ∧ (∀ roles, checkPermissionList [] roles = Except.ok true) :=
  ⟨by decide, by decide, fun roles => rfl⟩

/-- C4: isValidBitField accepts exactly the finite integers in
[0, 0xFFFFFFFF] (every such integer is exactly representable), and in
particular accepts 0 and 0xFFFFFFFF while rejecting 0x100000000, -1, 1.5,
NaN and the infinities. -/
theorem claim_C4_isValidBitField_characterization :
    (∀ x : JSNum, isValidBitField x = true ↔
      ∃ n : ℕ, x = JSNum.num ((n : ℕ) : ℚ) ∧ n ≤ 4294967295)
    ∧ isValidBitField (JSNum.num 0) = true
    ∧ isValidBitField (JSNum.num 4294967295) = true
    ∧ isValidBitField (JSNum.num 4294967296) = false
    ∧ isValidBitField (JSNum.num (-1)) = false
    ∧ isValidBitField (JSNum.num (mkRat 3 2)) = false
    ∧ isValidBitField JSNum.nan = false
    ∧ isValidBitField JSNum.inf = false
    ∧ isValidBitField JSNum.ninf = false := by
  refine ⟨?_, by decide, by decide, by decide, by decide, by decide, rfl, rfl, rfl⟩
  intro x
  cases x with
  | nan =>
    constructor
    · intro h
      exact absurd h (by decide)
    · rintro ⟨n, hn, -⟩
      exact JSNum.noConfusion hn
  | inf =>
    constructor
    · intro h
      exact absurd h (by decide)
    · rintro ⟨n, hn, -⟩
      exact JSNum.noConfusion hn
  | ninf =>
    constructor
    · intro h
      exact absurd h (by decide)
    · rintro ⟨n, hn, -⟩
      exact JSNum.noConfusion hn
  | num q =>
    rw [isValidBitField_num_iff]
    constructor
    · rintro ⟨hden, h0, hmax⟩
      have hq : ((q.num : ℚ)) = q := by
        rw [← Rat.num_div_den q, hden]
        simp
      have hnl : 0 ≤ q.num := Rat.num_nonneg.mpr h0
      refine ⟨q.num.toNat, ?_, ?_⟩
      · have : ((q.num.toNat : ℕ) : ℚ) = q := by
          rw [← hq]
          exact_mod_cast congrArg (fun z => ((z : Int) : ℚ)) (Int.toNat_of_nonneg hnl)
        rw [this]
      · have hnr : q.num ≤ 4294967295 := by
          have hcast : (q.num : ℚ) ≤ ((4294967295 : Int) : ℚ) := by
            rw [hq]
            exact_mod_cast hmax
          exact_mod_cast hcast
        omega
    · rintro ⟨n, hn, hnmax⟩
      have hq : q = ((n : ℕ) : ℚ) := JSNum.num.inj hn
      subst hq
      refine ⟨Rat.den_natCast n, by positivity, ?_⟩
      exact_mod_cast hnmax

/-- Concrete application of the C4 characterization at 7. -/
theorem claim_C4_witness : isValidBitField (JSNum.num 7) = true :=
  (claim_C4_isValidBitField_characterization.1 (JSNum.num 7)).mpr
    ⟨7, by norm_num, by norm_num⟩

theorem mem_setKey {acc : List (String × Int)} {k : String} {v : Int} {p : String × Int}
    (h : p ∈ setKey acc k v) : p = (k, v) ∨ p ∈ acc := by
  induction acc with
  | nil =>
    simp [setKey] at h
    exact Or.inl h
  | cons q rest ih =>
    obtain ⟨k', v'⟩ := q
    by_cases hk : k' = k
    · rw [setKey, if_pos hk] at h
      rcases List.mem_cons.mp h with h1 | h1
      · subst hk
        exact Or.inl h1
      · exact Or.inr (List.mem_cons_of_mem _ h1)
    · rw [setKey, if_neg hk] at h
      rcases List.mem_cons.mp h with h1 | h1
      · exact Or.inr (by simp [h1])
      · rcases ih h1 with h2 | h2
        · exact Or.inl h2
        · exact Or.inr (List.mem_cons_of_mem _ h2)

theorem normalizeEntries_ok_valid (roleName : String) (entries : List RoleZoneAccess)
    (acc m : List (String × Int))
    (h : normalizeEntries roleName entries acc = Except.ok m)
    (hacc : ∀ p ∈ acc, entryOk p) : ∀ p ∈ m, entryOk p := by
  induction entries generalizing acc with
  | nil =>
    have hm : acc = m := by
      simpa [normalizeEntries] using h
    subst hm
    exact hacc
  | cons ra rest ih =>
    rcases hz : validateZoneName ra.zone.name (zoneNameInRoleContext roleName) with e | u
    · rw [show normalizeEntries roleName (ra :: rest) acc = (do
        validateZoneName ra.zone.name (zoneNameInRoleContext roleName)
        validateBitField ra.permission (permissionForZoneContext ra.zone.name)
        normalizeEntries roleName rest (setKey acc ra.zone.name ra.permission)) from rfl, hz] at h
      exact Except.noConfusion h
    · rcases hv : validateBitField ra.permission (permissionForZoneContext ra.zone.name) with e | u2
      · rw [show normalizeEntries roleName (ra :: rest) acc = (do
          validateZoneName ra.zone.name (zoneNameInRoleContext roleName)
          validateBitField ra.permission (permissionForZoneContext ra.zone.name)
          normalizeEntries roleName rest (setKey acc ra.zone.name ra.permission)) from rfl,
          hz, hv] at h
        exact Except.noConfusion h
      · have hstep : normalizeEntries roleName (ra :: rest) acc =
            normalizeEntries roleName rest (setKey acc ra.zone.name ra.permission) := by
          rw [show normalizeEntries roleName (ra :: rest) acc = (do
            validateZoneName ra.zone.name (zoneNameInRoleContext roleName)
            validateBitField ra.permission (permissionForZoneContext ra.zone.name)
            normalizeEntries roleName rest (setKey acc ra.zone.name ra.permission)) from rfl,
            hz, hv]
          rfl
        rw [hstep] at h
        refine ih (setKey acc ra.zone.name ra.permission) h ?_
        intro p hp
        rcases mem_setKey hp with h1 | h1
        · subst h1
          exact ⟨(validateZoneName_ok_iff _ _).mp (by cases u; exact hz),
                 (validateBitField_ok_iff _ _).mp (by cases u2; exact hv)⟩
        · exact hacc p h1

theorem validateZoneName_error_of_invalid (s ctx : String) (h : isValidZoneName s = false) :
    ∃ e, validateZoneName s ctx = Except.error e ∧ e.status = ErrorStatus.invalid_permission := by
  rcases hcase : validateZoneName s ctx with e | u
  · exact ⟨e, rfl, validateZoneName_error_status s ctx e hcase⟩
  · exfalso
    cases u
    have := (validateZoneName_ok_iff s ctx).mp hcase
    rw [h] at this
    exact Bool.noConfusion this

theorem validateBitField_error_of_invalid (n : Int) (ctx : String)
    (h : isValidBitFieldInt n = false) :
    ∃ e, validateBitField n ctx = Except.error e ∧ e.status = ErrorStatus.invalid_permission := by
  rcases hcase : validateBitField n ctx with e | u
  · exact ⟨e, rfl, validateBitField_error_status n ctx e hcase⟩
  · exfalso
    cases u
    have := (validateBitField_ok_iff n ctx).mp hcase
    rw [h] at this
    exact Bool.noConfusion this

theorem normalizeEntries_error_of_invalid (roleName : String) (entries : List RoleZoneAccess)
    (acc : List (String × Int))
    (h : ∃ ra ∈ entries, ¬(isValidZoneName ra.zone.name = true ∧
        isValidBitFieldInt ra.permission = true)) :
    ∃ e, normalizeEntries roleName entries acc = Except.error e ∧
      e.status = ErrorStatus.invalid_permission := by
  induction entries generalizing acc with
  | nil =>
    rcases h with ⟨ra, hra, -⟩
    exact absurd hra (by simp)
  | cons ra rest ih =>
    by_cases hz : isValidZoneName ra.zone.name = true
    · by_cases hv : isValidBitFieldInt ra.permission = true
      · have hnext : ∃ rb ∈ rest, ¬(isValidZoneName rb.zone.name = true ∧
            isValidBitFieldInt rb.permission = true) := by
          rcases h with ⟨rc, hrc, hbad⟩
          rcases List.mem_cons.mp hrc with h1 | h1
          · exact absurd ⟨h1 ▸ hz, h1 ▸ hv⟩ hbad
          · exact ⟨rc, h1, hbad⟩
        rcases ih (setKey acc ra.zone.name ra.permission) hnext with ⟨e, he, hst⟩
        refine ⟨e, ?_, hst⟩
        rw [show normalizeEntries roleName (ra :: rest) acc = (do
          validateZoneName ra.zone.name (zoneNameInRoleContext roleName)
          validateBitField ra.permission (permissionForZoneContext ra.zone.name)
          normalizeEntries roleName rest (setKey acc ra.zone.name ra.permission)) from rfl,
          (validateZoneName_ok_iff _ _).mpr hz, (validateBitField_ok_iff _ _).mpr hv]
        exact he
      · rcases validateBitField_error_of_invalid ra.permission
          (permissionForZoneContext ra.zone.name) (by simpa using hv) with ⟨e, he, hst⟩
        refine ⟨e, ?_, hst⟩
        rw [show normalizeEntries roleName (ra :: rest) acc = (do
          validateZoneName ra.zone.name (zoneNameInRoleContext roleName)
          validateBitField ra.permission (permissionForZoneContext ra.zone.name)
          normalizeEntries roleName rest (setKey acc ra.zone.name ra.permission)) from rfl,
          (validateZoneName_ok_iff _ _).mpr hz, he]
        rfl
    · rcases validateZoneName_error_of_invalid ra.zone.name
        (zoneNameInRoleContext roleName) (by simpa using hz) with ⟨e, he, hst⟩
      refine ⟨e, ?_, hst⟩
      rw [show normalizeEntries roleName (ra :: rest) acc = (do
        validateZoneName ra.zone.name (zoneNameInRoleContext roleName)
        validateBitField ra.permission (permissionForZoneContext ra.zone.name)
        normalizeEntries roleName rest (setKey acc ra.zone.name ra.permission)) from rfl, he]
      rfl

/-- Status carried by a failing computation, none on success. -/
def errorStatus {α : Type} : Except AccessControlError α → Option ErrorStatus
  | Except.error e => some e.status
  | Except.ok _ => none

/-- Spec example of a role whose only zone name is the reserved __proto__. -/
def protoRole : RoleWithAccess :=
  { id := "x", name := "x",
    access := [{ zone := { id := "z", name := "__proto__" }, permission := 31 }] }

/-- C5: normalizeRole validates every zone name (rejecting empty names,
names over 128 characters, reserved names such as proto, and underscore
prefixes or suffixes) and every bitfield, fails with the InvalidPermission
status on any invalid entry — the reserved-name role of the spec example
fails that way — and a successful result only ever holds valid entries. -/
theorem claim_C5_normalizeRole_validation :
    errorStatus (normalizeRole protoRole) = some ErrorStatus.invalid_permission
    ∧ (∀ role nr, normalizeRole role = Except.ok nr →
        ∀ p ∈ nr.access, isValidZoneName p.1 = true ∧ isValidBitFieldInt p.2 = true)
    ∧ (∀ role, (∃ ra ∈ role.access, ¬(isValidZoneName ra.zone.name = true ∧
          isValidBitFieldInt ra.permission = true)) →
        ∃ e, normalizeRole role = Except.error e ∧
          e.status = ErrorStatus.invalid_permission)
    ∧ isValidZoneName "" = false
    ∧ isValidZoneName (String.mk (List.replicate 129 'a')) = false
    ∧ isValidZoneName (String.mk (List.replicate 128 'a')) = true
    ∧ isValidZoneName "_x" = false
    ∧ isValidZoneName "x_" = false
    ∧ (∀ s ∈ RESERVED_ZONE_NAMES, isValidZoneName s = false) := by
  refine ⟨by decide, ?_, ?_, by decide, ?_, ?_, by decide, by decide, by decide⟩
  · intro role nr h p hp
    rcases hcase : normalizeEntries role.name role.access [] with e | access
    · rw [show normalizeRole role = (do
        let access ← normalizeEntries role.name role.access []
        Except.ok { id := role.id, name := role.name, access := access }) from rfl,
        hcase] at h
      exact Except.noConfusion h
    · rw [show normalizeRole role = (do
        let access ← normalizeEntries role.name role.access []
        Except.ok { id := role.id, name := role.name, access := access }) from rfl,
        hcase] at h
      have hnr : nr = { id := role.id, name := role.name, access := access } := by
        injection h with h2
        exact h2.symm
      have hval := normalizeEntries_ok_valid role.name role.access [] access hcase
        (by intro q hq; exact absurd hq (by simp))
      rw [hnr] at hp
      exact hval p hp
  · intro role hbad
    rcases normalizeEntries_error_of_invalid role.name role.access [] hbad with ⟨e, he, hst⟩
    refine ⟨e, ?_, hst⟩
    rw [show normalizeRole role = (do
      let access ← normalizeEntries role.name role.access []
      Except.ok { id := role.id, name := role.name, access := access }) from rfl, he]
    rfl
  · set_option maxRecDepth 8192 in decide
  · set_option maxRecDepth 8192 in decide

/-- Concrete instance discharging the hypotheses of the C5 theorem: a valid
Editor role normalizes and its single entry is valid. -/
theorem claim_C5_witness :
    isValidZoneName "content" = true ∧ isValidBitFieldInt 14 = true :=
  claim_C5_normalizeRole_validation.2.1
    { id := "r1", name := "Editor",
      access := [{ zone := { id := "z1", name := "content" }, permission := 14 }] }
    { id := "r1", name := "Editor", access := [("content", 14)] }
    (by decide) ("content", 14) (by decide)

/-- Ownership condition of assertDataAccess: the data is present and carries
exactly the caller's id. -/
def ownsData (data : Option OwnedData) (user : UserWithZonePermissions) : Prop :=
  ∃ d, data = some d ∧ d.userId = some user.id

instance (data : Option OwnedData) (user : UserWithZonePermissions) :
    Decidable (ownsData data user) := by
  unfold ownsData
  cases data with
  | none =>
    refine Decidable.isFalse ?_
    rintro ⟨d, hd, -⟩
    exact Option.noConfusion hd
  | some d =>
    by_cases h : d.userId = some user.id
    · exact Decidable.isTrue ⟨d, rfl, h⟩
    · refine Decidable.isFalse ?_
      rintro ⟨d2, hd2, hid⟩
      have : d2 = d := by
        injection hd2 with h2
        exact h2.symm
      exact h (this ▸ hid)

/-- Spec example user u1 with no roles. -/
def userU1 : UserWithZonePermissions :=
  { id := "u1", email := none, roles := [], access := [] }

/-- C6: data owned by the caller is granted regardless of roles (including
the DELETE example with no roles at all); otherwise a passing checkPermission
grants and a failing one throws the plain Unauthorized error. -/
theorem claim_C6_assertDataAccess_ownership_bypass :
    assertDataAccess (some { userId := some "u1" }) [("zone", 1)] userU1 = Except.ok true
    ∧ (∀ data needed user, ownsData data user →
        assertDataAccess data needed user = Except.ok true)
    ∧ (∀ data needed user, ¬ ownsData data user →
        checkPermission needed user.roles = Except.ok true →
        assertDataAccess data needed user = Except.ok true)
    ∧ (∀ data needed user, ¬ ownsData data user →
        checkPermission needed user.roles = Except.ok false →
        assertDataAccess data needed user = Except.error (ThrownError.js "Unauthorized")) := by
  refine ⟨by decide, ?_, ?_, ?_⟩
  · rintro data needed user ⟨d, hd, hid⟩
    subst hd
    unfold assertDataAccess
    simp only [hid, beq_self_eq_true]
    rfl
  · intro data needed user hno hok
    cases data with
    | none =>
      show (match checkPermission needed user.roles with
        | Except.ok true => Except.ok true
        | Except.ok false => Except.error (ThrownError.js "Unauthorized")
        | Except.error e => Except.error (ThrownError.ac e)) = Except.ok true
      rw [hok]
    | some d =>
      have hne : (d.userId == some user.id) = false :=
        beq_eq_false_iff_ne.mpr (fun h => hno ⟨d, rfl, h⟩)
      unfold assertDataAccess
      simp only [hne]
      rw [if_neg (by simp), hok]
  · intro data needed user hno hfail
    cases data with
    | none =>
      show (match checkPermission needed user.roles with
        | Except.ok true => Except.ok true
        | Except.ok false => Except.error (ThrownError.js "Unauthorized")
        | Except.error e => Except.error (ThrownError.ac e)) =
          Except.error (ThrownError.js "Unauthorized")
      rw [hfail]
    | some d =>
      have hne : (d.userId == some user.id) = false :=
        beq_eq_false_iff_ne.mpr (fun h => hno ⟨d, rfl, h⟩)
      unfold assertDataAccess
      simp only [hne]
      rw [if_neg (by simp), hfail]

/-- Concrete instance discharging the hypotheses of the C6 theorem: without
ownership and without a granting role the call throws Unauthorized. -/
theorem claim_C6_witness :
    assertDataAccess (some { userId := some "u2" }) [("zone", 1)] userU1 =
      Except.error (ThrownError.js "Unauthorized") :=
  claim_C6_assertDataAccess_ownership_bypass.2.2.2
    (some { userId := some "u2" }) [("zone", 1)] userU1 (by decide) (by decide)

theorem toUint32_natCast (n : ℕ) (h : n < 4294967296) : toUint32 ((n : ℕ) : Int) = n := by
  unfold toUint32
  omega

theorem land_small_eq_mod (m b : ℕ) (hm : m < 32) : m &&& b = m &&& (b % 32) := by
  apply Nat.eq_of_testBit_eq
  intro i
  rw [Nat.testBit_and, Nat.testBit_and]
  by_cases hi : i < 5
  · have h32 : (32 : ℕ) = 2 ^ 5 := by norm_num
    rw [h32, Nat.testBit_mod_two_pow]
    simp [hi]
  · have hmi : Nat.testBit m i = false := by
      apply Nat.testBit_lt_two_pow
      calc m < 32 := hm
        _ = 2 ^ 5 := by norm_num
        _ ≤ 2 ^ i := Nat.pow_le_pow_right (by norm_num) (by omega)
    simp [hmi]

theorem and_31_eq_mod (b : ℕ) : b &&& 31 = b % 32 := by
  apply Nat.eq_of_testBit_eq
  intro i
  rw [Nat.testBit_and]
  have h31 : (31 : ℕ) = 2 ^ 5 - 1 := by norm_num
  have h32 : (32 : ℕ) = 2 ^ 5 := by norm_num
  rw [h31, Nat.testBit_two_pow_sub_one, h32, Nat.testBit_mod_two_pow]
  exact Bool.and_comm _ _

theorem jsAnd_mask_natCast (m b : ℕ) (hm : m < 2147483648) (hb : b < 4294967296) :
    jsAnd ((m : ℕ) : Int) ((b : ℕ) : Int) = ((m &&& b : ℕ) : Int) := by
  unfold jsAnd
  rw [toUint32_natCast m (by omega), toUint32_natCast b hb]
  exact ofUint32_small (Nat.lt_of_le_of_lt (Nat.and_le_left) hm)

theorem beq_cast_decide (x m : ℕ) :
    (((x : ℕ) : Int) == ((m : ℕ) : Int)) = decide (x = m) := by
  by_cases h : x = m
  · simp [h]
  · have : ¬ (((x : ℕ) : Int) = ((m : ℕ) : Int)) := by
      exact_mod_cast h
    simp [h, this]

/-- C7: the base codec round-trips: decoding an encoded Permission restores
it exactly, and encoding a decoded valid bitfield restores the bitfield
restricted to the five known mask bits (mask union 31). -/
theorem claim_C7_codec_roundtrip :
    (∀ p : Permission, fromBitField (toBitField p) = Except.ok p)
    ∧ (∀ b : ℕ, b ≤ 4294967295 →
        ∃ p, fromBitField ((b : ℕ) : Int) = Except.ok p
          ∧ toBitField p = ((b &&& 31 : ℕ) : Int)) := by
  constructor
  · intro p
    rcases p with ⟨c, r, u, d, a⟩
    cases c <;> cases r <;> cases u <;> cases d <;> cases a <;> decide
  · intro b hb
    have hb32 : b < 4294967296 := by omega
    have hval : validateBitField ((b : ℕ) : Int) "bitfield conversion input" = Except.ok () :=
      (validateBitField_ok_iff _ _).mpr ((isValidBitFieldInt_iff _).mpr
        ⟨Int.ofNat_nonneg b, by exact_mod_cast hb⟩)
    have key : ∀ m : ℕ, m < 32 →
        (jsAnd ((m : ℕ) : Int) ((b : ℕ) : Int) == ((m : ℕ) : Int)) =
          decide (m &&& (b % 32) = m) := by
      intro m hm
      rw [jsAnd_mask_natCast m b (by omega) hb32, beq_cast_decide, land_small_eq_mod m b hm]
    refine ⟨{ create := jsAnd PERMISSION_MASKS.CREATE ((b : ℕ) : Int) == PERMISSION_MASKS.CREATE,
              read := jsAnd PERMISSION_MASKS.READ ((b : ℕ) : Int) == PERMISSION_MASKS.READ,
              update := jsAnd PERMISSION_MASKS.UPDATE ((b : ℕ) : Int) == PERMISSION_MASKS.UPDATE,
              delete := jsAnd PERMISSION_MASKS.DELETE ((b : ℕ) : Int) == PERMISSION_MASKS.DELETE,
              admin := jsAnd PERMISSION_MASKS.ADMIN ((b : ℕ) : Int) == PERMISSION_MASKS.ADMIN },
      ?_, ?_⟩
    · unfold fromBitField
      rw [hval]
      rfl
    · have e8 : (jsAnd PERMISSION_MASKS.CREATE ((b : ℕ) : Int) == PERMISSION_MASKS.CREATE) =
          decide ((8 : ℕ) &&& (b % 32) = 8) := key 8 (by norm_num)
      have e4 : (jsAnd PERMISSION_MASKS.READ ((b : ℕ) : Int) == PERMISSION_MASKS.READ) =
          decide ((4 : ℕ) &&& (b % 32) = 4) := key 4 (by norm_num)
      have e2 : (jsAnd PERMISSION_MASKS.UPDATE ((b : ℕ) : Int) == PERMISSION_MASKS.UPDATE) =
          decide ((2 : ℕ) &&& (b % 32) = 2) := key 2 (by norm_num)
      have e1 : (jsAnd PERMISSION_MASKS.DELETE ((b : ℕ) : Int) == PERMISSION_MASKS.DELETE) =
          decide ((1 : ℕ) &&& (b % 32) = 1) := key 1 (by norm_num)
      have e16 : (jsAnd PERMISSION_MASKS.ADMIN ((b : ℕ) : Int) == PERMISSION_MASKS.ADMIN) =
          decide ((16 : ℕ) &&& (b % 32) = 16) := key 16 (by norm_num)
      rw [e8, e4, e2, e1, e16]
      have hmod : ((b &&& 31 : ℕ) : Int) = ((b % 32 : ℕ) : Int) := by
        rw [and_31_eq_mod]
      rw [hmod]
      have hlt : b % 32 < 32 := Nat.mod_lt _ (by norm_num)
      exact (by decide : ∀ r : ℕ, r < 32 →
        toBitField { create := decide ((8 : ℕ) &&& r = 8), read := decide ((4 : ℕ) &&& r = 4),
                     update := decide ((2 : ℕ) &&& r = 2), delete := decide ((1 : ℕ) &&& r = 1),
                     admin := decide ((16 : ℕ) &&& r = 16) } = ((r : ℕ) : Int)) (b % 32) hlt

/-- Concrete application of the C7 round-trip at the bitfield 6. -/
theorem claim_C7_witness :
    ∃ p, fromBitField ((6 : ℕ) : Int) = Except.ok p
      ∧ toBitField p = (((6 : ℕ) &&& 31 : ℕ) : Int) :=
  claim_C7_codec_roundtrip.2 6 (by norm_num)

/-- Permission record with only the admin flag set: fromBitField(ADMIN). -/
def adminOnlyPermission : Permission :=
  { create := false, read := false, update := false, delete := false, admin := true }

/-- Permission record with every flag false. -/
def noPermission : Permission :=
  { create := false, read := false, update := false, delete := false, admin := false }

/-- C8 (amended): the owner and per-user-override checks of
getUserPermissions run only inside the access-settings branch; with access
settings present the resolution order is owner, per-user override, role
aggregation restricted by the optional global override; without access
settings the user's raw zone permission is decoded, a missing zone giving
the all-false Permission. -/
theorem claim_C8_getUserPermissions_resolution :
    (∀ user item zoneKey acc, item.settings.bind (fun s => s.access) = some acc →
      itemOwnerMatch item user.id = true →
      getUserPermissions user item zoneKey = Except.ok adminOnlyPermission)
    ∧ (∀ user item zoneKey acc au p, item.settings.bind (fun s => s.access) = some acc →
      itemOwnerMatch item user.id = false →
      (acc.users.getD []).find? (fun accessUser => accessUser.uid == user.id) = some au →
      au.access = PermissionInput.perm p →
      getUserPermissions user item zoneKey = Except.ok p)
    ∧ (∀ user item zoneKey acc au n, item.settings.bind (fun s => s.access) = some acc →
      itemOwnerMatch item user.id = false →
      (acc.users.getD []).find? (fun accessUser => accessUser.uid == user.id) = some au →
      au.access = PermissionInput.bits n →
      getUserPermissions user item zoneKey = fromBitField n)
    ∧ (∀ user item zoneKey acc g agg gb, item.settings.bind (fun s => s.access) = some acc →
      itemOwnerMatch item user.id = false →
      (acc.users.getD []).find? (fun accessUser => accessUser.uid == user.id) = none →
      acc.global = some g →
      collapseRoles user.roles = Except.ok agg →
      normalizePermissionToBitField g = Except.ok gb →
      getUserPermissions user item zoneKey =
        fromBitField (jsAnd ((List.lookup zoneKey agg).getD 0) gb))
    ∧ (∀ user item zoneKey acc agg, item.settings.bind (fun s => s.access) = some acc →
      itemOwnerMatch item user.id = false →
      (acc.users.getD []).find? (fun accessUser => accessUser.uid == user.id) = none →
      acc.global = none →
      collapseRoles user.roles = Except.ok agg →
      getUserPermissions user item zoneKey =
        fromBitField ((List.lookup zoneKey agg).getD 0))
    ∧ (∀ user item zoneKey agg, item.settings.bind (fun s => s.access) = none →
      collapseRoles user.roles = Except.ok agg →
      getUserPermissions user item zoneKey =
        fromBitField ((List.lookup zoneKey agg).getD 0))
    ∧ (∀ user item zoneKey agg, item.settings.bind (fun s => s.access) = none →
      collapseRoles user.roles = Except.ok agg →
      List.lookup zoneKey agg = none →
      getUserPermissions user item zoneKey = Except.ok noPermission) := by
  refine ⟨?_, ?_, ?_, ?_, ?_, ?_, ?_⟩
  · intro user item zoneKey acc hacc howner
    unfold getUserPermissions
    rw [hacc]
    show (if itemOwnerMatch item user.id = true then fromBitField PERMISSION_MASKS.ADMIN
      else _) = _
    rw [if_pos howner]
    decide
  · intro user item zoneKey acc au p hacc howner hfind hau
    unfold getUserPermissions
    rw [hacc]
    show (if itemOwnerMatch item user.id = true then fromBitField PERMISSION_MASKS.ADMIN
      else _) = _
    rw [if_neg (by simp [howner]), hfind]
    show (match au.access with
      | PermissionInput.bits n => fromBitField n
      | PermissionInput.perm p2 => Except.ok p2) = _
    rw [hau]
  · intro user item zoneKey acc au n hacc howner hfind hau
    unfold getUserPermissions
    rw [hacc]
    show (if itemOwnerMatch item user.id = true then fromBitField PERMISSION_MASKS.ADMIN
      else _) = _
    rw [if_neg (by simp [howner]), hfind]
    show (match au.access with
      | PermissionInput.bits n2 => fromBitField n2
      | PermissionInput.perm p2 => Except.ok p2) = _
    rw [hau]
  · intro user item zoneKey acc g agg gb hacc howner hfind hglob hagg hnorm
    unfold getUserPermissions
    rw [hacc]
    show (if itemOwnerMatch item user.id = true then fromBitField PERMISSION_MASKS.ADMIN
      else _) = _
    rw [if_neg (by simp [howner]), hfind, hagg]
    show (match acc.global with
      | some g2 => do
          let globalBitField ← normalizePermissionToBitField g2
          fromBitField (jsAnd ((List.lookup zoneKey agg).getD 0) globalBitField)
      | none => fromBitField ((List.lookup zoneKey agg).getD 0)) = _
    rw [hglob]
    show (do
      let globalBitField ← normalizePermissionToBitField g
      fromBitField (jsAnd ((List.lookup zoneKey agg).getD 0) globalBitField)) = _
    rw [hnorm]
    rfl
  · intro user item zoneKey acc agg hacc howner hfind hglob hagg
    unfold getUserPermissions
    rw [hacc]
    show (if itemOwnerMatch item user.id = true then fromBitField PERMISSION_MASKS.ADMIN
      else _) = _
    rw [if_neg (by simp [howner]), hfind, hagg]
    show (match acc.global with
      | some g2 => do
          let globalBitField ← normalizePermissionToBitField g2
          fromBitField (jsAnd ((List.lookup zoneKey agg).getD 0) globalBitField)
      | none => fromBitField ((List.lookup zoneKey agg).getD 0)) = _
    rw [hglob]
  · intro user item zoneKey agg hnone hagg
    unfold getUserPermissions
    rw [hnone]
    show (do
      let userPermissions ← collapseRoles user.roles
      fromBitField ((List.lookup zoneKey userPermissions).getD 0)) = _
    rw [hagg]
    rfl
  · intro user item zoneKey agg hnone hagg hzone
    unfold getUserPermissions
    rw [hnone]
    show (do
      let userPermissions ← collapseRoles user.roles
      fromBitField ((List.lookup zoneKey userPermissions).getD 0)) = _
    rw [hagg]
    show fromBitField ((List.lookup zoneKey agg).getD 0) = _
    rw [hzone]
    decide

/-- C8 counterexample: an item that declares its owner but has no access
settings does not yield the admin Permission for the owner — the code falls
through to role aggregation, here yielding the all-false Permission. -/
theorem claim_C8_counterexample :
    getUserPermissions { id := "u1", roles := [] }
      { uid := some (ItemUid.str "u1"), userId := none, settings := none } "z" =
      Except.ok noPermission
    ∧ fromBitField PERMISSION_MASKS.ADMIN = Except.ok adminOnlyPermission
    ∧ noPermission ≠ adminOnlyPermission :=
  ⟨by decide, by decide, by decide⟩

/-- Item owned by u1 that does carry (empty) access settings. -/
def ownedItemWithSettings : AccessControlledItem :=
  { uid := some (ItemUid.str "u1"), userId := none,
    settings := some { access := some { global := none, users := none }, permissions := none } }

/-- Concrete instance discharging the hypotheses of the C8 theorem: with
access settings present, the owner receives the admin Permission. -/
theorem claim_C8_witness :
    getUserPermissions { id := "u1", roles := [] } ownedItemWithSettings "z" =
      Except.ok adminOnlyPermission :=
  claim_C8_getUserPermissions_resolution.1 { id := "u1", roles := [] }
    ownedItemWithSettings "z" { global := none, users := none } (by decide) (by decide)

theorem validatePermissionMask_error_status (n : Int) (ctx : String) (e : AccessControlError)
    (h : validatePermissionMask n ctx = Except.error e) :
    e.status = ErrorStatus.invalid_permission := by
  unfold validatePermissionMask at h
  split_ifs at h
  injection h with h2
  rw [← h2]

/-- C9 (amended): every Validator failure carries the InvalidPermission
status, except the disallowed-bits failure of validateAllowedPermissions,
which carries the Forbidden status and fires exactly when both operands are
valid bitfields and the requested bitfield holds a bit outside the allowed
mask. -/
theorem claim_C9_validator_error_kinds :
    (∀ s ctx e, validateZoneName s ctx = Except.error e →
      e.status = ErrorStatus.invalid_permission)
    ∧ (∀ n ctx e, validateBitField n ctx = Except.error e →
      e.status = ErrorStatus.invalid_permission)
    ∧ (∀ n ctx e, validatePermissionMask n ctx = Except.error e →
      e.status = ErrorStatus.invalid_permission)
    ∧ (∀ b a ctx e, validateAllowedPermissions b a ctx = Except.error e →
      (e.status = ErrorStatus.invalid_permission ∨
        (e.status = ErrorStatus.forbidden ∧ isValidBitFieldInt b = true ∧
          isValidBitFieldInt a = true ∧ jsAnd b (jsNot a) ≠ 0))) := by
  refine ⟨validateZoneName_error_status, validateBitField_error_status,
    validatePermissionMask_error_status, ?_⟩
  intro b a ctx e h
  rcases hb : validateBitField b (ctx ++ " bitfield") with eb | ub
  · rw [show validateAllowedPermissions b a ctx = (do
      validateBitField b (ctx ++ " bitfield")
      validateBitField a (ctx ++ " allowed permissions")
      let disallowedBits := jsAnd b (jsNot a)
      if disallowedBits ≠ 0 then
        let rq := describeBitField b
        let al := describeBitField a
        let dis := describeBitField disallowedBits
        let msg := s!"{ctx}: Bitfield contains disallowed permissions. Requested: {rq}, Allowed: {al}, Disallowed: {dis}"
        Except.error { message := msg, status := ErrorStatus.forbidden }
      else Except.ok ()) from rfl, hb] at h
    have he : eb = e := by
      injection h
    exact Or.inl (he ▸ validateBitField_error_status b _ eb hb)
  · rcases ha : validateBitField a (ctx ++ " allowed permissions") with ea | ua
    · rw [show validateAllowedPermissions b a ctx = (do
        validateBitField b (ctx ++ " bitfield")
        validateBitField a (ctx ++ " allowed permissions")
        let disallowedBits := jsAnd b (jsNot a)
        if disallowedBits ≠ 0 then
          let rq := describeBitField b
          let al := describeBitField a
          let dis := describeBitField disallowedBits
          let msg := s!"{ctx}: Bitfield contains disallowed permissions. Requested: {rq}, Allowed: {al}, Disallowed: {dis}"
          Except.error { message := msg, status := ErrorStatus.forbidden }
        else Except.ok ()) from rfl, hb, ha] at h
      have he : ea = e := by
        injection h
      exact Or.inl (he ▸ validateBitField_error_status a _ ea ha)
    · rw [show validateAllowedPermissions b a ctx = (do
        validateBitField b (ctx ++ " bitfield")
        validateBitField a (ctx ++ " allowed permissions")
        let disallowedBits := jsAnd b (jsNot a)
        if disallowedBits ≠ 0 then
          let rq := describeBitField b
          let al := describeBitField a
          let dis := describeBitField disallowedBits
          let msg := s!"{ctx}: Bitfield contains disallowed permissions. Requested: {rq}, Allowed: {al}, Disallowed: {dis}"
          Except.error { message := msg, status := ErrorStatus.forbidden }
        else Except.ok ()) from rfl, hb, ha] at h
      by_cases hd : jsAnd b (jsNot a) ≠ 0
      · rw [if_pos hd] at h
        refine Or.inr ⟨?_, ?_, ?_, hd⟩
        · injection h with h2
          rw [← h2]
        · cases ub
          exact (validateBitField_ok_iff _ _).mp hb
        · cases ua
          exact (validateBitField_ok_iff _ _).mp ha
      · rw [if_neg hd] at h
        exact Except.noConfusion h

/-- C9 counterexample: the disallowed-bits failure of
validateAllowedPermissions carries the Forbidden status, not
InvalidPermission. -/
theorem claim_C9_counterexample :
    errorStatus (validateAllowedPermissions 1 0 "permission validation") =
      some ErrorStatus.forbidden
    ∧ some ErrorStatus.forbidden ≠ some ErrorStatus.invalid_permission :=
  ⟨by decide, by decide⟩

/-- Concrete instance discharging the hypothesis of the C9 theorem. -/
theorem claim_C9_witness :
    ({ message := "Invalid zone name: . Must not be empty.",
       status := ErrorStatus.invalid_permission, code := none } : AccessControlError).status =
      ErrorStatus.invalid_permission :=
  claim_C9_validator_error_kinds.1 "" "zone name" _ (by decide)
